import Mathlib

/-!
Verification development for the `ff` parallel directory-search utility.

The definitions below are a shallow embedding of the C sources:
  - `src/ff.c`        : shared_ptr (refcounted ignore-scope handle), walk, worker, main
  - `src/generic/message.c` : priority message queue
  - `src/options.c`   : command-line parsing

Parts of the repository that are referenced but whose sources are not in
`src/` (the flagman counter from `flagman.h`/`flagman.c`, the iteration
macros from `macros.h`, the `QUEUE_PRIORITY_MAX`/`QUEUE_PRIORITY_MIN`
constants from `message.h`, and the external matchers PCRE / fnmatch /
libgit2 / getopt_long) are modelled from the specification; each such
definition carries a doc comment saying so.
-/

set_option linter.unusedVariables false

/-! ## Basic data model -/

/-- Filesystem entry types, mirroring the `DT_*` constants of `<dirent.h>`
used by `ff.c` and `options.c`.  `unknown` is `DT_UNKNOWN`, which `main`
also uses as the default value of `opt.only_type` meaning "any type". -/
inductive DType where
  | blk | chr | dir | fifo | lnk | reg | sock | unknown
deriving DecidableEq, Repr

/-- Match modes of `ff` (the `mode` field of `options`). -/
inductive MatchMode where
  | NONE | REGEX | GLOB
deriving DecidableEq, Repr

/-- The options snapshot consumed by the walker, mirroring the fields of
`struct options` that the core reads.  Defaults are the ones set at the
top of `main` in `ff.c` (`nthreads` defaults to `get_nprocs()` at runtime;
the model uses 1).  `pattern` stands for the pattern string handed to
`regex_compile` (REGEX) or kept as `match.pattern` (GLOB). -/
structure Options where
  mode : MatchMode := .NONE
  only_type : DType := .unknown
  skip_hidden : Bool := true
  max_depth : Int := -1
  icase : Bool := false
  no_ignore : Bool := false
  nthreads : Nat := 1
  deterministic : Bool := false
  pattern : String := ""
deriving DecidableEq, Repr

/-- One directory entry as returned by `readdir`: a name and a `d_type`. -/
structure DirEntry where
  name : String
  dtype : DType
deriving DecidableEq, Repr

/-- A filesystem snapshot: which paths can be opened as directories, and
their entry lists in `readdir` order.  `fsLookup` plays the role of
`opendir` + `readdir`: `none` means `opendir` fails. -/
abbrev Fs := List (String × List DirEntry)

def fsLookup (fs : Fs) (p : String) : Option (List DirEntry) :=
  match fs with
  | [] => none
  | (q, es) :: rest => if q = p then some es else fsLookup rest p

/-- Modelled from the spec: the ignore-scope provider (libgit2) is an
external collaborator (§6 "Ignore-scope provider": `open`, `is_ignored`,
`release`; the core treats it as opaque).  `openRepo` models
`git_repository_open` (used by `walk`), `openRepoExt` models
`git_repository_open_ext` (used by `main` on the roots); both return
`none` on failure.  Repositories are identified by a `Nat`. -/
structure GitProvider where
  openRepo : String → Option Nat
  openRepoExt : String → Option Nat
  ignored : Nat → String → Bool

/-! ## Matchers

`fnmatch` and PCRE are external libraries; they are modelled from their
documented semantics as used by `ff` (basename-only matching). -/

/-- Case folding of one character under the `icase` flag (ASCII, matching
PCRE's default tables and `FNM_CASEFOLD` in the C locale). -/
def foldChar (icase : Bool) (c : Char) : Char :=
  if icase then c.toLower else c

/-- Character comparison with optional case folding. -/
def charMatches (icase : Bool) (a b : Char) : Bool :=
  foldChar icase a == foldChar icase b

/-- Does `pat` match literally at the start of `s` (allowing trailing
characters of `s`)? -/
def litHere (icase : Bool) : List Char → List Char → Bool
  | [], _ => true
  | _ :: _, [] => false
  | p :: ps, s :: ss => charMatches icase p s && litHere icase ps ss

/-- Unanchored literal search: does `pat` occur at some position of `s`? -/
def pcreSearch (icase : Bool) (pat : List Char) : List Char → Bool
  | [] => litHere icase pat []
  | s :: ss => litHere icase pat (s :: ss) || pcreSearch icase pat ss

/-- Modelled from the spec: regex matching.  `regex_compile` and the PCRE
engine are outside `src/`; §6 states "REGEX: ... compiled once with
case-fold flag derived from `--ignore-case`", and `options.c` passes
`opt->icase` to `regex_compile`.  The model is restricted to literal
patterns (no metacharacters), matched unanchored as PCRE does. -/
def regexMatch (icase : Bool) (pat subj : List Char) : Bool :=
  pcreSearch icase pat subj

/-- Modelled from the spec: `fnmatch` glob semantics with `?`, `*` and
the `FNM_CASEFOLD` flag (bracket classes omitted; no theorem below uses
them).  The flag argument comes from `worker` in `ff.c`:
`glob_flags = opt->icase ? FNM_CASEFOLD : 0`. -/
def globMatch (icase : Bool) (pat subj : List Char) : Bool :=
  match pat, subj with
  | [], [] => true
  | [], _ :: _ => false
  | '*' :: ps, [] => globMatch icase ps []
  | '*' :: ps, s :: ss => globMatch icase ps (s :: ss) || globMatch icase ('*' :: ps) ss
  | '?' :: ps, _ :: ss => globMatch icase ps ss
  | _ :: _, [] => false
  | p :: ps, s :: ss => charMatches icase p s && globMatch icase ps ss
termination_by (pat.length, subj.length)
decreasing_by
  all_goals simp_wf
  all_goals omega

theorem charMatches_true_eq (a b : Char) :
    charMatches true a b = charMatches false a.toLower b.toLower := rfl

theorem litHere_true_eq (p s : List Char) :
    litHere true p s = litHere false (p.map Char.toLower) (s.map Char.toLower) := by
  induction p generalizing s with
  | nil => cases s <;> rfl
  | cons c cs ih =>
    cases s with
    | nil => rfl
    | cons d ds =>
      simp only [List.map_cons, litHere, ih, charMatches_true_eq]

theorem pcreSearch_true_eq (p s : List Char) :
    pcreSearch true p s = pcreSearch false (p.map Char.toLower) (s.map Char.toLower) := by
  induction s with
  | nil => simpa [pcreSearch] using litHere_true_eq p []
  | cons d ds ih =>
    simp only [pcreSearch, ih, litHere_true_eq p (d :: ds), List.map_cons]

theorem regexMatch_true_eq (p s : List Char) :
    regexMatch true p s = regexMatch false (p.map Char.toLower) (s.map Char.toLower) :=
  pcreSearch_true_eq p s

theorem char_toNat_inj {a b : Char} (h : a.toNat = b.toNat) : a = b := by
  cases a; cases b
  simp only [Char.toNat] at h
  congr 1
  exact UInt32.toNat.inj h

theorem char_ofNat_toNat (n : Nat) (h : n < 55296) : (Char.ofNat n).toNat = n := by
  simp [Char.ofNat, Char.toNat, Nat.isValidChar, h, Char.ofNatAux, UInt32.toNat, UInt32.ofNatCore]

theorem toLower_toNat (c : Char) :
    c.toLower.toNat = if 65 ≤ c.toNat ∧ c.toNat ≤ 90 then c.toNat + 32 else c.toNat := by
  simp only [Char.toLower, ge_iff_le]
  split
  · rename_i h
    exact char_ofNat_toNat (c.toNat + 32) (by omega)
  · rename_i h
    simp [h]

theorem toLower_fix (c : Char) (h : ¬(65 ≤ c.toNat ∧ c.toNat ≤ 90)) : c.toLower = c := by
  simp only [Char.toLower, ge_iff_le]
  split
  · rename_i h2
    exact absurd h2 h
  · rfl

/-- For a target character that is not an ASCII letter (such as the glob
metacharacters `*` and `?`), case folding neither creates nor destroys
equality with it. -/
theorem toLower_eq_iff (c d : Char) (hu : ¬(65 ≤ d.toNat ∧ d.toNat ≤ 90))
    (hl : ¬(97 ≤ d.toNat ∧ d.toNat ≤ 122)) : c.toLower = d ↔ c = d := by
  by_cases h : 65 ≤ c.toNat ∧ c.toNat ≤ 90
  · constructor
    · intro he
      have := toLower_toNat c
      rw [he, if_pos h] at this
      omega
    · intro he
      subst he
      exact absurd h hu
  · rw [toLower_fix c h]

theorem globMatch_lit (icase : Bool) (e d : Char) (ps ss : List Char)
    (h1 : e ≠ '*') (h2 : e ≠ '?') :
    globMatch icase (e :: ps) (d :: ss) = (charMatches icase e d && globMatch icase ps ss) := by
  rw [globMatch.eq_def]
  split <;> simp_all

theorem globMatch_nil_subj (icase : Bool) (e : Char) (ps : List Char) (h1 : e ≠ '*') :
    globMatch icase (e :: ps) [] = false := by
  rw [globMatch.eq_def]
  split <;> simp_all

theorem globMatch_true_eq (p s : List Char) :
    globMatch true p s = globMatch false (p.map Char.toLower) (s.map Char.toLower) := by
  generalize hn : p.length + s.length = n
  induction n using Nat.strong_induction_on generalizing p s with
  | _ n ih =>
  subst hn
  match p, s with
  | [], [] => simp [globMatch]
  | [], d :: ds => simp [globMatch]
  | c :: ps, s =>
    by_cases hc : c = '*'
    · subst hc
      match s with
      | [] =>
        simp only [List.map_cons, List.map_nil, show Char.toLower '*' = '*' from rfl]
        rw [globMatch, globMatch]
        exact ih _ (by simp) ps [] rfl
      | d :: ds =>
        simp only [List.map_cons, show Char.toLower '*' = '*' from rfl]
        rw [globMatch, globMatch]
        rw [ih _ (by simp) ps (d :: ds) rfl, ih _ (by simp) ('*' :: ps) ds rfl]
        simp
    · by_cases hq : c = '?'
      · subst hq
        match s with
        | [] =>
          simp only [List.map_cons, List.map_nil, show Char.toLower '?' = '?' from rfl]
          rw [globMatch_nil_subj _ _ _ (by decide), globMatch_nil_subj _ _ _ (by decide)]
        | d :: ds =>
          simp only [List.map_cons, show Char.toLower '?' = '?' from rfl]
          rw [globMatch, globMatch]
          exact ih _ (by simp; omega) ps ds rfl
      · have hc' : c.toLower ≠ '*' := fun h =>
          hc ((toLower_eq_iff c '*' (by decide) (by decide)).mp h)
        have hq' : c.toLower ≠ '?' := fun h =>
          hq ((toLower_eq_iff c '?' (by decide) (by decide)).mp h)
        match s with
        | [] =>
          simp only [List.map_cons, List.map_nil]
          rw [globMatch_nil_subj _ _ _ hc, globMatch_nil_subj _ _ _ hc']
        | d :: ds =>
          simp only [List.map_cons]
          rw [globMatch_lit _ _ _ _ _ hc hq, globMatch_lit _ _ _ _ _ hc' hq',
            ih _ (by simp; omega) ps ds rfl, charMatches_true_eq]

/-! ## Priority message queue (`src/generic/message.c`)

The queue is a singly linked list of nodes plus a `tail` pointer, a
counting semaphore `length`, and a mutex.  The model represents the chain
reachable from `head` as a Lean list in link order; each node carries a
unique id so that the `tail` pointer (which `queue_put` never updates and
which can therefore go stale) can be represented as an id.  A payload of
`none` is a `NULL` message, i.e. a terminator sentinel. -/

/-- Modelled from the spec: `QUEUE_PRIORITY_MAX` / `QUEUE_PRIORITY_MIN`
come from `message.h`, which is not under `src/`; §9 describes the
head/tail boundary priorities as "distinguished abstract values ...
implementations may encode them as tagged variants of the priority type",
so the model uses a tagged type with `bot < mid n < top`. -/
inductive Priority where
  | bot
  | mid (n : Nat)
  | top
deriving DecidableEq, Repr

/-- `p.gtb q` is the C comparison `p > q` on priorities. -/
def Priority.gtb : Priority → Priority → Bool
  | .top, .top => false
  | .top, _ => true
  | .mid a, .mid b => b < a
  | .mid _, .bot => true
  | .mid _, .top => false
  | .bot, _ => false

/-- One queue node: `struct _node` (priority, message, next); the id
stands for the node's address.  `msg = none` is a `NULL` message. -/
structure QNode (α : Type) where
  id : Nat
  prio : Priority
  msg : Option α
deriving DecidableEq, Repr

/-- `struct _queue`: the chain reachable from `head` (in link order),
the id the `tail` pointer refers to, a fresh-id counter, the semaphore
value, and a flag marking states the model declares undefined (the C code
would touch a freed node there).  No run in this file reaches a corrupt
state. -/
structure Queue (α : Type) where
  list : List (QNode α)
  tailId : Option Nat
  fresh : Nat
  sem : Nat
  corrupt : Bool
deriving DecidableEq, Repr

/-- `queue_new`. -/
def queue_new (α : Type) : Queue α :=
  ⟨[], none, 0, 0, false⟩

/-- The scan-and-splice loop of `queue_put`: starting at `head`, walk
while the current node is not the one `tail` points to, its priority is
strictly greater than the new one, and it has a successor; then link the
new node after the node the scan stopped at. -/
def insertScan {α : Type} (tid : Option Nat) (n : QNode α) :
    List (QNode α) → List (QNode α)
  | [] => [n]
  | p :: rest =>
    if some p.id = tid ∨ ¬(p.prio.gtb n.prio) ∨ rest.isEmpty then
      p :: n :: rest
    else
      p :: insertScan tid n rest

/-- `queue_put`: splice a node with the given priority after the first
node at which the scan stops (`tail` is not updated in the non-empty
case, which is how it goes stale). -/
def queue_put {α : Type} (q : Queue α) (m : Option α) (pr : Priority) : Queue α :=
  let n : QNode α := ⟨q.fresh, pr, m⟩
  if q.list.isEmpty then
    { q with list := [n], tailId := some n.id, fresh := q.fresh + 1, sem := q.sem + 1 }
  else
    { q with list := insertScan q.tailId n q.list, fresh := q.fresh + 1, sem := q.sem + 1 }

/-- `queue_put_head`: prepend with `QUEUE_PRIORITY_MAX` (`tail` is not
updated in the non-empty case). -/
def queue_put_head {α : Type} (q : Queue α) (m : Option α) : Queue α :=
  let n : QNode α := ⟨q.fresh, .top, m⟩
  if q.list.isEmpty then
    { q with list := [n], tailId := some n.id, fresh := q.fresh + 1, sem := q.sem + 1 }
  else
    { q with list := n :: q.list, fresh := q.fresh + 1, sem := q.sem + 1 }

/-- Set `t.next := n` for the node with id `t` (this orphans whatever
followed `t`, exactly as `q->tail->next = new_node` does when the tail
pointer is stale). -/
def linkAfter {α : Type} (t : Nat) (n : QNode α) : List (QNode α) → List (QNode α)
  | [] => []
  | p :: rest => if p.id = t then p :: [n] else p :: linkAfter t n rest

/-- `queue_put_tail`: append a `QUEUE_PRIORITY_MIN` node after the node
the `tail` pointer designates.  If that node has been freed the C code
writes to freed memory; the model marks the state corrupt. -/
def queue_put_tail {α : Type} (q : Queue α) (m : Option α) : Queue α :=
  let n : QNode α := ⟨q.fresh, .bot, m⟩
  if q.list.isEmpty then
    { q with list := [n], tailId := some n.id, fresh := q.fresh + 1, sem := q.sem + 1 }
  else
    match q.tailId with
    | some t =>
      if (q.list.map QNode.id).contains t then
        { q with list := linkAfter t n q.list, tailId := some n.id,
                 fresh := q.fresh + 1, sem := q.sem + 1 }
      else
        { q with corrupt := true }
    | none => { q with corrupt := true }

/-- `queue_get`: `sem_wait` then unlink the head.  The first component is
`none` when the call would block (`sem_wait` on 0); `some msg` is a
dequeued message, whose payload `none` is the terminator. -/
def queue_get {α : Type} (q : Queue α) : Option (Option α) × Queue α :=
  if q.sem = 0 then
    (none, q)
  else
    match q.list with
    | [] => (none, { q with corrupt := true })
    | h :: rest =>
      if rest.isEmpty then
        (some h.msg, { q with list := [], tailId := none, sem := q.sem - 1 })
      else
        (some h.msg, { q with list := rest, sem := q.sem - 1 })

/-! ## Reference-counted ignore-scope handles (`shared_ptr` in `src/ff.c`)

A handle is `struct _shared_ptr { git_repository *ptr; int *refcnt; }`.
The heap of live refcount cells is an association list from cell id (the
`int*` address) to the current count; a cell absent from the heap has
been freed. -/

/-- Heap of live refcount cells: id of the `int*` cell to current count. -/
abbrev RcHeap := List (Nat × Nat)

def heapGet (h : RcHeap) (i : Nat) : Option Nat :=
  match h with
  | [] => none
  | (j, c) :: rest => if j = i then some c else heapGet rest i

def heapSet (h : RcHeap) (i : Nat) (c : Nat) : RcHeap :=
  match h with
  | [] => []
  | (j, c0) :: rest => if j = i then (j, c) :: rest else (j, c0) :: heapSet rest i c

def heapRemove (h : RcHeap) (i : Nat) : RcHeap :=
  match h with
  | [] => []
  | (j, c0) :: rest => if j = i then rest else (j, c0) :: heapRemove rest i

/-- `struct _shared_ptr`: `ptr` records whether the `git_repository*`
referent is non-`NULL`; `refcnt` is the id of the count cell, `none`
standing for a `NULL` `int*`. -/
structure shared_ptr where
  ptr : Bool
  refcnt : Option Nat
deriving DecidableEq, Repr

/-- Result of `free_shared`:
`ok h freedReferent freedCell` is a normal return with the new heap,
whether `git_repository_free` freed a (non-`NULL`) referent, and whether
`free(s.refcnt)` ran; `assertFail` is the `assert(s.refcnt != NULL)`
firing; `useAfterFree` marks a decrement of an already-freed cell. -/
inductive RcResult where
  | ok (h : RcHeap) (freedReferent : Bool) (freedCell : Bool)
  | assertFail
  | useAfterFree
deriving DecidableEq, Repr

/-- `free_shared` from `ff.c`: assert the count cell exists, atomically
decrement it, and on the `1 → 0` transition call `git_repository_free`
on the referent (a no-op when the referent is `NULL`, per libgit2) and
`free` the count cell. -/
def free_shared (h : RcHeap) (s : shared_ptr) : RcResult :=
  match s.refcnt with
  | none => .assertFail
  | some i =>
    match heapGet h i with
    | none => .useAfterFree
    | some c =>
      if c - 1 = 0 then
        .ok (heapRemove h i) s.ptr true
      else
        .ok (heapSet h i (c - 1)) false false

/-- `make_shared_copy` from `ff.c`: atomically increment the count cell;
`none` models the crash of incrementing through a `NULL` or freed
pointer (never reached by valid traces). -/
def make_shared_copy (h : RcHeap) (s : shared_ptr) : Option RcHeap :=
  match s.refcnt with
  | none => none
  | some i =>
    match heapGet h i with
    | none => none
    | some c => some (heapSet h i (c + 1))

/-! ### Single-referent duplicate/release traces (claim C5)

All duplicates and releases performed on handles of one opened referent,
in the order their atomic refcount operations take effect, form a trace
over cell 0. -/

/-- One operation on a handle of the tracked referent. -/
inductive RcOp where
  | dup
  | rel
deriving DecidableEq, Repr

def countDup (l : List RcOp) : Nat := l.count .dup

def countRel (l : List RcOp) : Nat := l.count .rel

/-- Handles outstanding after the trace `l`, starting from the single
handle returned by the initial open: `1 + duplicates − releases`. -/
def outstanding (l : List RcOp) : Nat := 1 + countDup l - countRel l

/-- A trace is valid if every operation happens while at least one
handle is outstanding (each release consumes an existing handle, each
duplicate copies an existing handle). -/
def rcValid (c0 : Nat) (l : List RcOp) : Prop :=
  ∀ k, k < l.length → countRel (l.take k) < c0 + countDup (l.take k)

/-- Run a trace against the heap holding the tracked cell, counting how
many times the cell (and with it the referent) is freed.  `none` marks a
trace the C code would crash on. -/
def rcRun (h : RcHeap) : List RcOp → Option (RcHeap × Nat)
  | [] => some (h, 0)
  | op :: rest =>
    match op with
    | .dup =>
      match make_shared_copy h ⟨true, some 0⟩ with
      | none => none
      | some h2 => rcRun h2 rest
    | .rel =>
      match free_shared h ⟨true, some 0⟩ with
      | .ok h2 _ freedCell =>
        match rcRun h2 rest with
        | none => none
        | some (h3, n) => some (h3, (if freedCell then 1 else 0) + n)
      | _ => none

theorem heapGet_single (i c : Nat) : heapGet [(i, c)] i = some c := by
  simp [heapGet]

theorem heapSet_single (i c c2 : Nat) : heapSet [(i, c)] i c2 = [(i, c2)] := by
  simp [heapSet]

theorem heapRemove_single (i c : Nat) : heapRemove [(i, c)] i = [] := by
  simp [heapRemove]

theorem countDup_cons_dup (l : List RcOp) : countDup (.dup :: l) = countDup l + 1 := by
  simp [countDup]

theorem countDup_cons_rel (l : List RcOp) : countDup (.rel :: l) = countDup l := by
  simp [countDup]

theorem countRel_cons_dup (l : List RcOp) : countRel (.dup :: l) = countRel l := by
  simp [countRel]

theorem countRel_cons_rel (l : List RcOp) : countRel (.rel :: l) = countRel l + 1 := by
  simp [countRel]

theorem rcRun_cons_dup (c : Nat) (rest : List RcOp) :
    rcRun [(0, c)] (.dup :: rest) = rcRun [(0, c + 1)] rest := by
  simp [rcRun, make_shared_copy, heapGet_single, heapSet_single]

theorem rcRun_spec (l : List RcOp) : ∀ (c0 : Nat), 0 < c0 → rcValid c0 l →
    rcRun [(0, c0)] l =
      if c0 + countDup l = countRel l then some ([], 1)
      else some ([(0, c0 + countDup l - countRel l)], 0) := by
  induction l with
  | nil =>
    intro c0 hc0 _
    simp only [rcRun, countDup, countRel, List.count_nil]
    rw [if_neg (by omega)]
    simp
  | cons op rest ih =>
    intro c0 hc0 hv
    cases op with
    | dup =>
      have hrec := ih (c0 + 1) (by omega) (by
        intro k hk
        have h2 := hv (k + 1) (by simp; omega)
        rw [List.take_succ_cons, countRel_cons_dup, countDup_cons_dup] at h2
        omega)
      rw [rcRun_cons_dup, hrec, countDup_cons_dup, countRel_cons_dup,
        show c0 + (countDup rest + 1) = c0 + 1 + countDup rest from by omega]
    | rel =>
      by_cases h1 : c0 = 1
      · subst h1
        -- the only credit is consumed: the cell is freed, and validity
        -- forces the rest of the trace to be empty
        have hrest : rest = [] := by
          by_contra hne
          have h2 := hv 1 (by
            cases rest with
            | nil => exact absurd rfl hne
            | cons a b => simp)
          rw [List.take_succ_cons, List.take_zero, countRel_cons_rel] at h2
          simp [countRel, countDup] at h2
        subst hrest
        simp [rcRun, free_shared, heapGet_single, heapRemove_single, countDup, countRel]
      · have hrec := ih (c0 - 1) (by omega) (by
          intro k hk
          have h2 := hv (k + 1) (by simp; omega)
          rw [List.take_succ_cons, countRel_cons_rel, countDup_cons_rel] at h2
          omega)
        have hv0 := hv 0 (by simp)
        simp [countRel, countDup] at hv0
        have hfree : free_shared [(0, c0)] ⟨true, some 0⟩ = .ok [(0, c0 - 1)] false false := by
          simp only [free_shared, heapGet_single]
          rw [if_neg (by omega), heapSet_single]
        simp only [rcRun, hfree]
        rw [hrec, countDup_cons_rel, countRel_cons_rel]
        by_cases h : c0 - 1 + countDup rest = countRel rest
        · rw [if_pos h, if_pos (show c0 + countDup rest = countRel rest + 1 from by omega)]
          simp
        · rw [if_neg h, if_neg (show ¬(c0 + countDup rest = countRel rest + 1) from by omega)]
          simp
          omega

/-! ## Command-line parsing (`src/options.c`)

`parse_options` drives `getopt_long` with optstring `"d:t:j:gHiIDh"` and
the long-option table, then scans the positionals: the first is the
pattern, the rest are root directories (checked with `opendir` and
stripped of trailing slashes). -/

/-- Does this short option take an argument (`d:`, `t:`, `j:`)? -/
def takesArg (c : Char) : Bool :=
  c = 'd' ∨ c = 't' ∨ c = 'j'

/-- Is this a known argument-less short option? -/
def isFlagChar (c : Char) : Bool :=
  c = 'g' ∨ c = 'H' ∨ c = 'i' ∨ c = 'I' ∨ c = 'D' ∨ c = 'h'

/-- The long-option table of `parse_options`, mapping each long name to
the short option it is a synonym of. -/
def longTable : List (String × Char) :=
  [("depth", 'd'), ("type", 't'), ("threads", 'j'), ("glob", 'g'), ("hidden", 'H'),
   ("ignore-case", 'i'), ("no-ignore", 'I'), ("deterministic", 'D'), ("help", 'h')]

def longLookup (name : String) : Option Char :=
  match longTable.find? (fun e => e.fst = name) with
  | some e => some e.snd
  | none => none

/-- One option occurrence as `getopt_long` reports it: the short
character and its argument, if any. -/
structure OptTok where
  c : Char
  arg : Option String
deriving DecidableEq, Repr

/-- Split `name=value` at the first `=`. -/
def splitEq (s : List Char) : List Char × Option (List Char) :=
  match s with
  | [] => ([], none)
  | '=' :: rest => ([], some rest)
  | c :: rest =>
    let r := splitEq rest
    (c :: r.fst, r.snd)

/-- Process one bundled short-option group (the characters of an argv
element after its leading `-`); returns the recognized options and the
remaining argv (the next element may have been consumed as an option
argument).  `none` is a parse error (`getopt` yields `?`). -/
def shortGroup (cs : List Char) (rest : List String) :
    Option (List OptTok × List String) :=
  match cs with
  | [] => some ([], rest)
  | c :: cs2 =>
    if takesArg c then
      if cs2.isEmpty then
        match rest with
        | [] => none
        | v :: r2 => some ([⟨c, some v⟩], r2)
      else
        some ([⟨c, some (String.mk cs2)⟩], rest)
    else if isFlagChar c then
      match shortGroup cs2 rest with
      | none => none
      | some (ts, r2) => some (⟨c, none⟩ :: ts, r2)
    else
      none

/-- Modelled from the spec: GNU `getopt_long` (an external library
routine) over the option set of `options.c`.  Options may appear before
or after positionals (GNU permutes; the model collects positionals in
their original relative order), `--` ends option scanning, long options
take `--name value` or `--name=value`, short options bundle and take
attached or following arguments.  Unsupported GNU extras (long-name
abbreviation) are not modelled and not used by any theorem.  The `fuel`
argument only bounds the recursion; `gnuGetopt` supplies enough. -/
def gnuGetoptF : Nat → List String → Option (List OptTok × List String)
  | 0, _ => none
  | _, [] => some ([], [])
  | Nat.succ fuel, a :: rest =>
    if a = "--" then
      some ([], rest)
    else if a.data.take 2 = ['-', '-'] then
      let nv := splitEq (a.data.drop 2)
      match longLookup (String.mk nv.fst) with
      | none => none
      | some c =>
        if takesArg c then
          match nv.snd with
          | some val =>
            match gnuGetoptF fuel rest with
            | none => none
            | some (ts, ps) => some (⟨c, some (String.mk val)⟩ :: ts, ps)
          | none =>
            match rest with
            | [] => none
            | v :: r2 =>
              match gnuGetoptF fuel r2 with
              | none => none
              | some (ts, ps) => some (⟨c, some v⟩ :: ts, ps)
        else
          match nv.snd with
          | some _ => none
          | none =>
            match gnuGetoptF fuel rest with
            | none => none
            | some (ts, ps) => some (⟨c, none⟩ :: ts, ps)
    else if a.data.take 1 = ['-'] ∧ a ≠ "-" then
      match shortGroup (a.data.drop 1) rest with
      | none => none
      | some (ts, r2) =>
        match gnuGetoptF fuel r2 with
        | none => none
        | some (ts2, ps) => some (ts ++ ts2, ps)
    else
      match gnuGetoptF fuel rest with
      | none => none
      | some (ts, ps) => some (ts, a :: ps)

def gnuGetopt (argv : List String) : Option (List OptTok × List String) :=
  gnuGetoptF (argv.length + 1) argv

/-- The result of `parse_options`: `success` carries the options
snapshot and the root paths (`argv[optind..]` after slash truncation);
`failure` is `OPTIONS_FAILURE` (usage printed, `main` exits 1); `help`
is `OPTIONS_HELP` (`main` exits 0); `abort` marks a failing `assert`
(`SIGABRT`, not an orderly exit). -/
inductive ParseResult where
  | success (opt : Options) (roots : List String)
  | failure
  | help
  | abort
deriving DecidableEq, Repr

/-- The `--type` switch of `parse_options`: it inspects only
`optarg[0]`. -/
def typeOfChar (c : Char) : Option DType :=
  if c = 'b' then some .blk
  else if c = 'c' then some .chr
  else if c = 'd' then some .dir
  else if c = 'n' then some .fifo
  else if c = 'l' then some .lnk
  else if c = 'f' then some .reg
  else if c = 's' then some .sock
  else none

/-- `strtoul` on a decimal string: leading digits are converted, no
digits yields 0 (the model covers the decimal case of base 0; no theorem
uses `0x`/octal inputs or values near `ULONG_MAX`). -/
def parseNatDec (s : List Char) : Nat :=
  match s with
  | [] => 0
  | c :: _ =>
    if c.isDigit then parseNatAux s 0 else 0
where
  parseNatAux : List Char → Nat → Nat
    | [], acc => acc
    | c :: rest, acc =>
      if c.isDigit then parseNatAux rest (acc * 10 + (c.toNat - 48)) else acc

/-- The option switch of `parse_options`, applied to one `getopt`
result.  `Except.error` is an early return. -/
def applyTok (o : Options) (t : OptTok) : Except ParseResult Options :=
  if t.c = 'd' then
    match t.arg with
    | none => .error .failure
    | some a =>
      let n := parseNatDec a.data
      if n = 0 then .error .failure else .ok { o with max_depth := (n : Int) }
  else if t.c = 't' then
    match t.arg with
    | none => .error .failure
    | some a =>
      match a.data with
      | [] => .error .abort
      | c :: _ =>
        match typeOfChar c with
        | some ty => .ok { o with only_type := ty }
        | none => .error .failure
  else if t.c = 'j' then
    match t.arg with
    | none => .error .failure
    | some a =>
      let n := parseNatDec a.data
      if n = 0 then .error .failure else .ok { o with nthreads := n }
  else if t.c = 'g' then .ok { o with mode := .GLOB }
  else if t.c = 'H' then .ok { o with skip_hidden := false }
  else if t.c = 'I' then .ok { o with no_ignore := true }
  else if t.c = 'i' then .ok { o with icase := true }
  else if t.c = 'D' then .ok { o with deterministic := true }
  else if t.c = 'h' then .error .help
  else .error .failure

def applyToks (o : Options) : List OptTok → Except ParseResult Options
  | [] => .ok o
  | t :: ts =>
    match applyTok o t with
    | .error r => .error r
    | .ok o2 => applyToks o2 ts

/-- Truncate trailing slashes while more than one character remains
(the root-argument normalization loop of `parse_options`). -/
def stripSlashes (s : List Char) : List Char :=
  if h : 1 < s.length ∧ s.getLast? = some '/' then
    stripSlashes s.dropLast
  else
    s
termination_by s.length
decreasing_by
  simp only [List.length_dropLast]
  omega

/-- Root checking loop of `parse_options`: each root must be openable
as a directory (checked before truncation), then trailing slashes are
truncated in place. -/
def checkRoots (fs : Fs) : List String → Option (List String)
  | [] => some []
  | r :: rest =>
    match fsLookup fs r with
    | none => none
    | some _ =>
      match checkRoots fs rest with
      | none => none
      | some rest2 => some (String.mk (stripSlashes r.data) :: rest2)

/-- `parse_options` from `options.c`: run `getopt_long`, fold the option
switch, then handle the positionals (first = pattern, selecting REGEX
when non-empty and no mode was chosen yet; zero positionals force mode
NONE; the rest are roots). -/
def parse_options (fs : Fs) (argv : List String) (o0 : Options) : ParseResult :=
  match gnuGetopt argv with
  | none => .failure
  | some (toks, pos) =>
    match applyToks o0 toks with
    | .error r => r
    | .ok o1 =>
      match pos with
      | [] => .success { o1 with mode := .NONE } []
      | pat :: rawRoots =>
        let o2 :=
          if pat.data.isEmpty = false ∧ o1.mode = .NONE then
            { o1 with mode := .REGEX, pattern := pat }
          else
            { o1 with pattern := pat }
        match checkRoots fs rawRoots with
        | none => .failure
        | some roots => .success o2 roots

/-- The defaults `main` sets before calling `parse_options`. -/
def optDefaults : Options := {}

/-- An empty filesystem (no openable directories), for invocations that
pass no root arguments. -/
def fsEmpty : Fs := []

def parsedMode (r : ParseResult) : Option MatchMode :=
  match r with
  | .success o _ => some o.mode
  | _ => none

def parsedType (r : ParseResult) : Option DType :=
  match r with
  | .success o _ => some o.only_type
  | _ => none

/-! ## The walker (`walk` in `src/ff.c`)

`walk` never recurses directly: it emits matches and enqueues one child
work item per subdirectory.  The model returns the sequence of actions
of one `walk` call in program order. -/

/-- The hidden-entry test of `walk`:
`d_name[0] == '.' || d_name[d_namlen - 1] == '~'`. -/
def hiddenName (s : String) : Bool :=
  s.data.head? = some '.' ∨ s.data.getLast? = some '~'

/-- Whether the ignore check of `walk` skips this entry:
`!opt->no_ignore && repo.ptr != NULL` and the git query says ignored. -/
def ignoreSkips (pr : GitProvider) (opt : Options) (repo : Option Nat) (name : String) : Bool :=
  !opt.no_ignore &&
    (match repo with
     | some r => pr.ignored r name
     | none => false)

/-- The match switch of `walk`: NONE always succeeds; REGEX runs the
compiled pattern (case-fold flag from `--ignore-case`, see
`regexMatch`); GLOB runs `fnmatch` with `glob_flags` from `worker`. -/
def nameMatches (opt : Options) (name : String) : Bool :=
  match opt.mode with
  | .NONE => true
  | .REGEX => regexMatch opt.icase opt.pattern.data name.data
  | .GLOB => globMatch opt.icase opt.pattern.data name.data

/-- The type filter guarding `process_match`:
`opt->only_type == DT_UNKNOWN || opt->only_type == entry->d_type`. -/
def typePasses (opt : Options) (e : DirEntry) : Bool :=
  opt.only_type = .unknown ∨ opt.only_type = e.dtype

/-- One action of a `walk` call, in program order: a `process_match`
 emission, or a `flagman_acquire` + `queue_put` of a child work item
(the two are adjacent in the code; `child` stands for the pair).  The
child carries its depth (= parent depth + 1, also its put priority),
its path, and the ignore-scope handle chosen for it. -/
inductive WalkAct where
  | emit (path : String)
  | child (depth : Nat) (path : String) (repo : Option Nat)
deriving DecidableEq, Repr

/-- The ignore-scope handle `walk` builds for a child directory: with
`--no-ignore` the fresh `NULL`-referent handle is kept; otherwise a
successful `git_repository_open(current)` yields a new scope, and on
failure the fresh handle is released and the parent's handle is
duplicated. -/
def childScope (pr : GitProvider) (opt : Options) (repo : Option Nat) (current : String) :
    Option Nat :=
  if opt.no_ignore then
    none
  else
    match pr.openRepo current with
    | some r => some r
    | none => repo

/-- The per-entry body of the `foreach_opendir` loop in `walk`. -/
def walkEntry (pr : GitProvider) (opt : Options) (parent : String) (repo : Option Nat)
    (depth : Nat) (e : DirEntry) : List WalkAct :=
  if e.name = "." ∨ e.name = ".." then
    []
  else if opt.skip_hidden && hiddenName e.name then
    []
  else if ignoreSkips pr opt repo e.name then
    []
  else
    let current := parent ++ "/" ++ e.name
    (if nameMatches opt e.name && typePasses opt e then [WalkAct.emit current] else []) ++
      (if e.dtype = .dir then
        [WalkAct.child (depth + 1) current (childScope pr opt repo current)]
      else
        [])

def walkEntries (pr : GitProvider) (opt : Options) (parent : String) (repo : Option Nat)
    (depth : Nat) : List DirEntry → List WalkAct
  | [] => []
  | e :: es =>
    walkEntry pr opt parent repo depth e ++ walkEntries pr opt parent repo depth es

/-- `walk` from `ff.c`: stop if the depth limit is reached
(`opt->max_depth > 0 && depth >= opt->max_depth`); open the directory
(silently returning on failure — the `foreach_opendir` macro from
`macros.h` is not under `src/` and is modelled from spec §4.4 steps 2–3:
enumerate the entries of `parent`, returning silently when the directory
cannot be opened); then run the per-entry body. -/
def walk (fs : Fs) (pr : GitProvider) (opt : Options) (parent : String)
    (repo : Option Nat) (depth : Nat) : List WalkAct :=
  if 0 < opt.max_depth ∧ opt.max_depth ≤ (depth : Int) then
    []
  else
    match fsLookup fs parent with
    | none => []
    | some es => walkEntries pr opt parent repo depth es

/-- The emitted paths of an action list, in order. -/
def emitsOf (acts : List WalkAct) : List String :=
  match acts with
  | [] => []
  | .emit p :: rest => p :: emitsOf rest
  | .child _ _ _ :: rest => emitsOf rest

/-- All filters of the per-entry body in one predicate (dot-entry,
hidden, ignore, type) — the match test is omitted, which is exactly what
mode NONE makes of the body. -/
def passesFilters (pr : GitProvider) (opt : Options) (repo : Option Nat) (e : DirEntry) : Bool :=
  !(e.name = "." ∨ e.name = "..") &&
    !(opt.skip_hidden && hiddenName e.name) &&
    !(ignoreSkips pr opt repo e.name) &&
    typePasses opt e

theorem emitsOf_append (a b : List WalkAct) :
    emitsOf (a ++ b) = emitsOf a ++ emitsOf b := by
  induction a with
  | nil => rfl
  | cons x rest ih => cases x <;> simp [emitsOf, ih]

/-- With mode NONE the per-entry body emits the entry's path exactly
when the entry passes the four filters. -/
theorem walkEntry_none (pr : GitProvider) (opt : Options) (parent : String)
    (repo : Option Nat) (depth : Nat) (e : DirEntry) (hm : opt.mode = .NONE) :
    emitsOf (walkEntry pr opt parent repo depth e) =
      if passesFilters pr opt repo e then [parent ++ "/" ++ e.name] else [] := by
  unfold walkEntry passesFilters
  have hmatch : nameMatches opt e.name = true := by
    unfold nameMatches
    rw [hm]
  split
  · rename_i h
    simp [h, emitsOf]
  · rename_i h
    split
    · rename_i h2
      simp [h, h2, emitsOf]
    · rename_i h2
      split
      · rename_i h3
        simp [h, h2, h3, emitsOf]
      · rename_i h3
        rw [emitsOf_append, hmatch]
        simp only [Bool.true_and]
        split
        · rename_i h4
          simp [h, h2, h3, h4, emitsOf]
          split <;> simp [emitsOf]
        · rename_i h4
          simp only [Bool.not_eq_true] at h4
          simp [h, h2, h3, h4, emitsOf]
          split <;> simp [emitsOf]

/-- With mode NONE, a `walk` of an openable directory within the depth
limit emits exactly the filter-passing entries, in directory order. -/
theorem walkEntries_none (pr : GitProvider) (opt : Options) (parent : String)
    (repo : Option Nat) (depth : Nat) (es : List DirEntry) (hm : opt.mode = .NONE) :
    emitsOf (walkEntries pr opt parent repo depth es) =
      (es.filter (passesFilters pr opt repo)).map (fun e => parent ++ "/" ++ e.name) := by
  induction es with
  | nil => rfl
  | cons e rest ih =>
    simp only [walkEntries, emitsOf_append, ih, List.filter_cons]
    rw [walkEntry_none pr opt parent repo depth e hm]
    split <;> simp

/-! ## Worker processing of one item (`worker` in `src/ff.c`)

The worker loop (`foreach_queue_get`, a macro from `macros.h` not under
`src/`, modelled from spec §4.5: dequeue; a terminator ends the loop;
otherwise run the walker on the item, then `flagman_release()`). -/

/-- Flagman-relevant events of processing one item, in program order. -/
inductive FEv where
  | acq
  | rel
  | emitted (path : String)
  | enq (depth : Nat) (path : String)
deriving DecidableEq, Repr

/-- The events of one walk action: an emission, or the
`flagman_acquire` directly followed by the child `queue_put`. -/
def actEvs (a : WalkAct) : List FEv :=
  match a with
  | .emit p => [.emitted p]
  | .child d p _ => [.acq, .enq d p]

def evsOf (acts : List WalkAct) : List FEv :=
  match acts with
  | [] => []
  | a :: rest => actEvs a ++ evsOf rest

/-- The event trace of `walk` on one directory. -/
def walkEvs (fs : Fs) (pr : GitProvider) (opt : Options) (parent : String)
    (repo : Option Nat) (depth : Nat) : List FEv :=
  evsOf (walk fs pr opt parent repo depth)

/-- The worker's handling of one dequeued non-terminator item: run
`walk`, then one `flagman_release`. -/
def workerItem (fs : Fs) (pr : GitProvider) (opt : Options) (parent : String)
    (repo : Option Nat) (depth : Nat) : List FEv :=
  walkEvs fs pr opt parent repo depth ++ [.rel]

theorem count_rel_evsOf (acts : List WalkAct) : (evsOf acts).count FEv.rel = 0 := by
  induction acts with
  | nil => rfl
  | cons a rest ih =>
    cases a <;> simp [evsOf, actEvs, List.count_append, ih, List.count_cons]

/-! ## A whole run (`main` in `src/ff.c`)

`main` parses options, creates the queue, performs **one**
`flagman_acquire`, spawns the workers, enqueues one work item per root
path with `queue_put_head` (no further acquires), waits for the flagman
to reach zero, enqueues `nthreads` terminators with `queue_put_tail`,
and joins.

The run below realizes one legal interleaving with a single worker
(`-j 1`): the worker starts consuming after seeding is complete, and the
main thread's `flagman_wait` returns — and the terminators are
enqueued — at the first moment the counter reaches zero, before the
worker's next dequeue.  The flagman itself (`flagman.h`/`flagman.c`,
not under `src/`) is modelled from spec §3/§4.3: a counter that
`acquire` increments, `release` decrements, and `wait` observes reach
zero; `trace` records every value the counter takes. -/

/-- One queued work item: `message_body` (depth, path, ignore-scope). -/
structure MsgBody where
  depth : Nat
  path : String
  repo : Option Nat
deriving DecidableEq, Repr

structure SysState where
  q : Queue MsgBody
  counter : Int
  trace : List Int
  emitted : List String
  termsSent : Bool
  workerExited : Bool
  stuck : Bool
deriving DecidableEq, Repr

/-- Apply one walk action: emissions append to stdout; a child action is
`flagman_acquire` (counter + 1) followed by `queue_put` at priority
`depth + 1`. -/
def applyAct (st : SysState) (a : WalkAct) : SysState :=
  match a with
  | .emit p => { st with emitted := st.emitted ++ [p] }
  | .child d p r =>
    { st with
      counter := st.counter + 1,
      trace := st.trace ++ [st.counter + 1],
      q := queue_put st.q (some ⟨d, p, r⟩) (.mid d) }

def applyActs (st : SysState) : List WalkAct → SysState
  | [] => st
  | a :: rest => applyActs (applyAct st a) rest

/-- `queue_put_tail(q, NULL)` repeated `n` times (the terminator loop of
`main`). -/
def sendTerms (n : Nat) (q : Queue MsgBody) : Queue MsgBody :=
  match n with
  | 0 => q
  | Nat.succ m => sendTerms m (queue_put_tail q none)

/-- The main thread wakes from `flagman_wait` exactly when the counter
is zero; it then sends the terminators (once). -/
def mainCheck (opt : Options) (st : SysState) : SysState :=
  if st.counter = 0 ∧ !st.termsSent then
    { st with q := sendTerms opt.nthreads st.q, termsSent := true }
  else
    st

/-- The single worker's loop, interleaved with the main thread's
terminator injection.  `fuel` bounds the number of dequeues (every run
below stays well under it). -/
def sysLoop (fs : Fs) (pr : GitProvider) (opt : Options) : Nat → SysState → SysState
  | 0, st => st
  | Nat.succ fuel, st =>
    match queue_get st.q with
    | (none, q2) => { st with q := q2, stuck := true }
    | (some none, q2) => { st with q := q2, workerExited := true }
    | (some (some b), q2) =>
      let st1 := applyActs { st with q := q2 } (walk fs pr opt b.path b.repo b.depth)
      let st2 := { st1 with
        counter := st1.counter - 1,
        trace := st1.trace ++ [st1.counter - 1] }
      sysLoop fs pr opt fuel (mainCheck opt st2)

/-- The seeding phase of `main`: the single `flagman_acquire`, then one
`queue_put_head` per root (in argv order), each root's scope coming
from `git_repository_open_ext` unless `--no-ignore`. -/
def seedRoots (pr : GitProvider) (opt : Options) (roots : List String) : SysState :=
  let st0 : SysState :=
    { q := queue_new MsgBody, counter := 1, trace := [1], emitted := [],
      termsSent := false, workerExited := false, stuck := false }
  roots.foldl
    (fun st r =>
      let repo := if opt.no_ignore then none else pr.openRepoExt r
      { st with q := queue_put_head st.q (some ⟨0, r, repo⟩) })
    st0

/-- A complete run of `ff` with one worker thread on the given roots. -/
def runSystem (fs : Fs) (pr : GitProvider) (opt : Options) (roots : List String)
    (fuel : Nat) : SysState :=
  sysLoop fs pr opt fuel (mainCheck opt (seedRoots pr opt roots))

/-- A git provider for trees containing no repositories: every open
fails, so every handle keeps a `NULL` referent and the ignore check is
skipped. -/
def prNone : GitProvider :=
  ⟨fun _ => none, fun _ => none, fun _ _ => false⟩

/-- The options of an invocation `ff -j1 <pattern-less> A B`:
all defaults, one worker thread. -/
def optRun : Options := {}

/-- Two empty root directories. -/
def fsTwoEmpty : Fs := [("A", []), ("B", [])]

/-- Root `A` holds a subdirectory `s` with a regular file `f` in it;
root `B` is empty. -/
def fsNested : Fs :=
  [("A", [⟨"s", .dir⟩]), ("A/s", [⟨"f", .reg⟩]), ("B", [])]

/-- The non-terminator payloads still sitting in a queue. -/
def realItems (q : Queue MsgBody) : List MsgBody :=
  q.list.filterMap QNode.msg

/-! ## Claim theorems -/

/-- Claim C1: the spec asserts the flagman counter never becomes
negative and that each root `queue_put_head` is preceded by one
`flagman_acquire`.  The code performs exactly one `flagman_acquire` for
the whole seeding phase, so with the two empty root directories `A` and
`B` (invocation `ff -j1 "" A B`) the two item completions outnumber the
acquires and the counter runs 1, 0, −1; with a single root the same code
ends balanced at 0. -/
theorem c1_flagman_goes_negative :
    (runSystem fsTwoEmpty prNone optRun ["A", "B"] 10).counter = -1 ∧
    (runSystem fsTwoEmpty prNone optRun ["A", "B"] 10).trace = [1, 0, -1] ∧
    (runSystem fsTwoEmpty prNone optRun ["A"] 10).counter = 0 := by
  refine ⟨by decide, by decide, by decide⟩

/-- Claim C3: with roots `A` (holding subdirectory `s`) and `B` (empty)
and one worker (`ff -j1 "" A B`), the flagman reaches zero after the
first root completes, the terminator is enqueued early, and the worker
dequeues it while the work item for `A/s` is still in the queue. -/
theorem c3_terminator_dequeued_with_work_pending :
    (runSystem fsNested prNone optRun ["A", "B"] 10).workerExited = true ∧
    (realItems (runSystem fsNested prNone optRun ["A", "B"] 10).q).map MsgBody.path =
      ["A/s"] := by
  refine ⟨by decide, by decide⟩

/-- Claim C4: in the same run, the entry `A/s/f` is reachable within the
(unlimited) depth bound and passes every filter — a `walk` of `A/s`
would emit it — yet the run emits only `A/s`, because the worker exits
on the premature terminator.  The single-root run emits both. -/
theorem c4_reachable_entry_never_emitted :
    (runSystem fsNested prNone optRun ["A", "B"] 10).emitted = ["A/s"] ∧
    walk fsNested prNone optRun "A/s" none 1 = [WalkAct.emit "A/s/f"] ∧
    (runSystem fsNested prNone optRun ["A"] 10).emitted = ["A/s", "A/s/f"] := by
  refine ⟨by decide, by decide, by decide⟩

/-- Claim C5: for every valid interleaving of duplicates and releases on
the handles of one opened referent (valid: each operation happens while
a handle is outstanding), the refcount cell — and with it the referent —
is freed exactly once, by the release that takes the count from 1 to 0
(which happens iff every handle is released), and never while a handle
remains (otherwise the cell survives with count = outstanding handles
and nothing is freed). -/
theorem c5_referent_freed_once (ops : List RcOp) (hv : rcValid 1 ops) :
    rcRun [(0, 1)] ops =
      if 1 + countDup ops = countRel ops then some ([], 1)
      else some ([(0, 1 + countDup ops - countRel ops)], 0) :=
  rcRun_spec ops 1 (by omega) hv

theorem c5_referent_freed_once_witness :
    rcRun [(0, 1)] [RcOp.dup, RcOp.rel, RcOp.rel] = some ([], 1) := by
  rw [c5_referent_freed_once [RcOp.dup, RcOp.rel, RcOp.rel] (by unfold rcValid; decide)]
  decide

/-- The queue state after `queue_put(10, prio 1)` then `queue_put(20, prio 2)`
into a fresh queue. -/
def qTwo : Queue Nat :=
  queue_put (queue_put (queue_new Nat) (some 10) (.mid 1)) (some 20) (.mid 2)

/-- Claim C2 counterexample: after inserting payload 10 at priority 1
and then payload 20 at the strictly higher priority 2, both are present,
but `queue_get` returns the priority-1 item first — `queue_put` splices
the new node *after* the head even when the new priority is greater, so
dequeue order is not non-increasing in priority. -/
theorem c2_counterexample :
    qTwo.list.map QNode.prio = [.mid 1, .mid 2] ∧
    Priority.gtb (.mid 2) (.mid 1) = true ∧
    (queue_get qTwo).fst = some (some 10) := by
  refine ⟨by decide, by decide, by decide⟩

/-- The queue state after three equal-priority puts (payloads 1, 2, 3 in
insertion order). -/
def qTie : Queue Nat :=
  queue_put (queue_put (queue_put (queue_new Nat) (some 1) (.mid 5)) (some 2) (.mid 5))
    (some 3) (.mid 5)

/-- Claim C2 amended: `queue_get` returns the head of the internal list,
and `queue_put` never displaces the head of a non-empty queue — even
when the new priority is strictly greater — so highest-priority-first
holds only through `queue_put_head`, whose item an immediately following
dequeue does return.  Ties are not broken by insertion order either: an
equal-priority `queue_put` lands immediately after the *first*
equal-priority node, ahead of equal-priority items inserted earlier
(payloads 1, 2, 3 inserted in that order at one priority sit as
1, 3, 2). -/
theorem c2_head_stability :
    (∀ (q : Queue Nat) (m : Option Nat) (pr : Priority),
       q.list ≠ [] → (queue_put q m pr).list.head? = q.list.head?) ∧
    (∀ (q : Queue Nat) (m : Option Nat),
       (queue_get (queue_put_head q m)).fst = some m) ∧
    qTie.list.map QNode.msg = [some 1, some 3, some 2] := by
  refine ⟨?_, ?_, by decide⟩
  · intro q m pr hne
    cases hq : q.list with
    | nil => exact absurd hq hne
    | cons p rest =>
      simp only [queue_put, hq, List.isEmpty_cons, Bool.false_eq_true, if_false, insertScan]
      split <;> simp
  · intro q m
    cases hq : q.list with
    | nil =>
      simp [queue_put_head, queue_get, hq]
    | cons p rest =>
      simp [queue_put_head, queue_get, hq]

theorem c2_head_stability_witness :
    (queue_put (queue_put_head (queue_new Nat) (some 7)) (some 8) (.mid 3)).list.head? =
      (queue_put_head (queue_new Nat) (some 7)).list.head? :=
  c2_head_stability.1 (queue_put_head (queue_new Nat) (some 7)) (some 8) (.mid 3) (by decide)

/-- Claim C6 counterexample: `ff -g ""` — the pattern positional is the
empty string and `-g` is passed — leaves the mode GLOB, not NONE
(`parse_options` only forces NONE when there are *zero* positionals;
with an explicit empty pattern the `strlen(pattern) > 0` guard merely
skips the REGEX upgrade). -/
theorem c6_counterexample :
    parsedMode (parse_options fsEmpty ["-g", ""] optDefaults) = some MatchMode.GLOB ∧
    MatchMode.GLOB ≠ MatchMode.NONE := by
  refine ⟨by decide, by decide⟩

/-- Claim C6 amended: an empty pattern yields mode NONE when `-g` is not
passed (and when the pattern is absent altogether, even with `-g`), but
an explicit empty pattern together with `-g` leaves mode GLOB.  In mode
NONE, `walk` on an openable directory within the depth limit emits
exactly the entries passing the hidden, ignore and type filters. -/
theorem c6_empty_pattern_modes :
    parsedMode (parse_options fsEmpty [""] optDefaults) = some MatchMode.NONE ∧
    parsedMode (parse_options fsEmpty ["-g"] optDefaults) = some MatchMode.NONE ∧
    parsedMode (parse_options fsEmpty ["-g", ""] optDefaults) = some MatchMode.GLOB ∧
    (∀ (fs : Fs) (pr : GitProvider) (opt : Options) (parent : String) (repo : Option Nat)
       (depth : Nat) (es : List DirEntry), opt.mode = .NONE →
       fsLookup fs parent = some es →
       ¬(0 < opt.max_depth ∧ opt.max_depth ≤ (depth : Int)) →
       emitsOf (walk fs pr opt parent repo depth) =
         (es.filter (passesFilters pr opt repo)).map (fun e => parent ++ "/" ++ e.name)) := by
  refine ⟨by decide, by decide, by decide, ?_⟩
  intro fs pr opt parent repo depth es hm hl hd
  unfold walk
  rw [if_neg hd, hl]
  exact walkEntries_none pr opt parent repo depth es hm

theorem c6_empty_pattern_modes_witness :
    emitsOf (walk fsNested prNone optRun "A/s" none 1) =
      (([⟨"f", DType.reg⟩] : List DirEntry).filter (passesFilters prNone optRun none)).map
        (fun e => "A/s" ++ "/" ++ e.name) :=
  c6_empty_pattern_modes.2.2.2 fsNested prNone optRun "A/s" none 1 [⟨"f", .reg⟩]
    rfl (by decide) (by decide)

/-- Claim C7 counterexample: with the literal pattern `readme` and the
basename `README`, the REGEX-mode match result depends on `icase`
(`regex_compile` receives `opt->icase`, so the compiled pattern is
case-folded exactly when `--ignore-case` is given) — regex results are
not independent of `icase`. -/
theorem c7_counterexample :
    regexMatch true ['r', 'e', 'a', 'd', 'm', 'e'] ['R', 'E', 'A', 'D', 'M', 'E'] ≠
      regexMatch false ['r', 'e', 'a', 'd', 'm', 'e'] ['R', 'E', 'A', 'D', 'M', 'E'] := by
  decide

/-- Claim C7 amended: `icase` affects both matchers alike.  GLOB folds
case exactly when `icase` is set, and REGEX is compiled with the
case-fold flag derived from `icase`: for both, matching with `icase` set
equals matching the case-folded pattern against the case-folded
basename, and concrete pattern/basename pairs witness that each matcher
changes its answer with `icase`. -/
theorem c7_icase_affects_both :
    (∀ p s, regexMatch true p s = regexMatch false (p.map Char.toLower) (s.map Char.toLower)) ∧
    (∀ p s, globMatch true p s = globMatch false (p.map Char.toLower) (s.map Char.toLower)) ∧
    regexMatch true ['r', 'e', 'a', 'd', 'm', 'e'] ['R', 'E', 'A', 'D', 'M', 'E'] = true ∧
    regexMatch false ['r', 'e', 'a', 'd', 'm', 'e'] ['R', 'E', 'A', 'D', 'M', 'E'] = false ∧
    globMatch true ['*', '.', 'C'] ['f', 'o', 'o', '.', 'c'] = true ∧
    globMatch false ['*', '.', 'C'] ['f', 'o', 'o', '.', 'c'] = false :=
  ⟨regexMatch_true_eq, globMatch_true_eq, by decide, by decide,
    by simp [globMatch, charMatches, foldChar], by simp [globMatch, charMatches, foldChar]⟩

/-- Claim C10: for every dequeued non-terminator work item — whatever
the tree, options, path, scope and depth, including walks that return
early on the depth limit or an unopenable directory — the worker's
processing performs exactly one `flagman_release`, it is the final
event, and no release occurs anywhere within `walk` itself. -/
theorem c10_one_release_after_walk (fs : Fs) (pr : GitProvider) (opt : Options)
    (parent : String) (repo : Option Nat) (depth : Nat) :
    (workerItem fs pr opt parent repo depth).count FEv.rel = 1 ∧
    (workerItem fs pr opt parent repo depth).getLast? = some FEv.rel ∧
    (walkEvs fs pr opt parent repo depth).count FEv.rel = 0 := by
  refine ⟨?_, ?_, count_rel_evsOf _⟩
  · unfold workerItem walkEvs
    rw [List.count_append, count_rel_evsOf]
    rfl
  · unfold workerItem
    rw [List.getLast?_append]
    rfl

/-- Claim C8 counterexample: `--type` parsing inspects only `optarg[0]`,
so the two-character argument `dx` — not one of the seven
single-character type strings — is accepted, selecting the directory
type, instead of failing. -/
theorem c8_counterexample :
    parse_options fsEmpty ["-t", "dx"] optDefaults =
      .success { optDefaults with only_type := DType.dir } [] ∧
    "dx" ∉ ["b", "c", "d", "n", "l", "f", "s"] := by
  refine ⟨by decide, by decide⟩

theorem heapRemove_length (h : RcHeap) (i : Nat) (c : Nat) (hg : heapGet h i = some c) :
    (heapRemove h i).length + 1 = h.length := by
  induction h with
  | nil => simp [heapGet] at hg
  | cons p rest ih =>
    obtain ⟨j, c0⟩ := p
    by_cases hp : j = i
    · simp [heapRemove, hp]
    · simp only [heapGet, if_neg hp] at hg
      simp [heapRemove, hp, ih hg]

/-- Claim C8 amended: a `--type` argument is accepted exactly when its
*first* character is one of `b c d n l f s` (whatever follows is
ignored); any non-empty argument whose first character is not one of the
seven makes parsing fail with exit 1. -/
theorem c8_type_first_char (s : String) (c : Char) (cs : List Char) (h : s.data = c :: cs) :
    parsedType (parse_options fsEmpty ["-t", s] optDefaults) = typeOfChar c ∧
    ((typeOfChar c).isSome ↔ c ∈ ['b', 'c', 'd', 'n', 'l', 'f', 's']) := by
  constructor
  · have hg : gnuGetopt ["-t", s] = some ([⟨'t', some s⟩], []) := by
      simp +decide [gnuGetopt, gnuGetoptF, shortGroup, splitEq, takesArg, isFlagChar]
    unfold parse_options
    rw [hg]
    simp only [applyToks, applyTok]
    rw [h]
    simp +decide only []
    cases htc : typeOfChar c with
    | none => simp [parsedType, htc]
    | some ty => simp [parsedType, htc]
  · unfold typeOfChar
    split_ifs <;> simp_all

theorem c8_type_first_char_witness :
    parsedType (parse_options fsEmpty ["-t", "d"] optDefaults) = typeOfChar 'd' ∧
    ((typeOfChar 'd').isSome ↔ 'd' ∈ ['b', 'c', 'd', 'n', 'l', 'f', 's']) :=
  c8_type_first_char "d" 'd' [] rfl

/-- Claim C9 counterexample: releasing the null-referent handle made by
`make_shared(NULL)` (referent `NULL`, refcount cell live at 1) is *not*
a no-op — it frees the refcount cell, changing the heap; and a handle
whose `refcnt` pointer itself is `NULL` is not a legal value at all:
`free_shared` hits `assert(s.refcnt != NULL)`. -/
theorem c9_counterexample :
    free_shared [(0, 1)] ⟨false, some 0⟩ = .ok [] false true ∧
    ([] : RcHeap) ≠ [(0, 1)] ∧
    free_shared [(0, 1)] ⟨false, none⟩ = .assertFail := by
  refine ⟨by decide, by decide, by decide⟩

/-- Claim C9 amended: there is no zero-cost null handle.  A handle with
a `NULL` refcount pointer trips the assertion (a programming error, not
a no-op); a handle with a `NULL` *referent* still owns an allocated
refcount cell, and releasing it decrements that cell — on the 1 → 0
transition the cell is freed (mutating state; only
`git_repository_free(NULL)` on the missing referent is a no-op), and at
higher counts the count simply drops. -/
theorem c9_null_referent_release (h : RcHeap) (i : Nat) (b : Bool) :
    free_shared h ⟨b, none⟩ = .assertFail ∧
    (heapGet h i = some 1 →
      free_shared h ⟨false, some i⟩ = .ok (heapRemove h i) false true ∧
      heapRemove h i ≠ h) ∧
    (∀ c, heapGet h i = some (c + 2) →
      free_shared h ⟨false, some i⟩ = .ok (heapSet h i (c + 1)) false false) := by
  refine ⟨rfl, ?_, ?_⟩
  · intro hg
    constructor
    · unfold free_shared
      dsimp only
      rw [hg]
      simp
    · intro heq
      have := heapRemove_length h i 1 hg
      rw [heq] at this
      omega
  · intro c hg
    unfold free_shared
    dsimp only
    rw [hg]
    simp

theorem c9_null_referent_release_witness :
    free_shared [(0, 1)] ⟨false, some 0⟩ = .ok (heapRemove [(0, 1)] 0) false true ∧
    heapRemove [(0, 1)] 0 ≠ [(0, 1)] :=
  (c9_null_referent_release [(0, 1)] 0 false).2.1 (by decide)
